import Mathlib

/- Shallow embedding of the futures-control application (main.py): the position
   ledger, the position controller, the indicator engine, the exit evaluator and
   the per-coin body of the auto-management loop.  Python floats are modelled as
   rationals; exchange I/O is modelled by environment records supplying the
   values the code would fetch, and by traces of the requests it would send. -/

attribute [local semireducible] Rat.add Rat.mul Rat.sub Rat.inv

deriving instance DecidableEq for Except

inductive Coin where
  | BTC
  | ETH
deriving DecidableEq

inductive Side where
  | LONG
  | SHORT
deriving DecidableEq

inductive OrderSide where
  | BUY
  | SELL
deriving DecidableEq

inductive TF where
  | TF1
  | TF3
deriving DecidableEq

inductive Cond where
  | ATR
  | CE
  | EMA13
  | EMA26
  | SwingHigh
  | SwingLow
deriving DecidableEq

/-- The SYMBOLS table of main.py. -/
def symbolOf : Coin → String
  | Coin.BTC => "BTCUSDT"
  | Coin.ETH => "ETHUSDT"

def coinName : Coin → String
  | Coin.BTC => "BTC"
  | Coin.ETH => "ETH"

/-- Per-symbol position record held in state["positions"][coin]. -/
structure Position where
  side : Side
  entry_price : ℚ
  base_usdt : ℚ
  last_add_price : ℚ
  next_add_price : ℚ
  sl_order_id : Option ℕ
deriving DecidableEq

/-- The keys present in the per-window exit-toggle dicts: TF1 carries all six
conditions, TF3 only ATR, CE and EMA26. -/
def condInTF : TF → Cond → Bool
  | TF.TF1, _ => true
  | TF.TF3, Cond.ATR => true
  | TF.TF3, Cond.CE => true
  | TF.TF3, Cond.EMA26 => true
  | TF.TF3, _ => false

/-- The shared in-memory state dict of main.py. -/
@[ext]
structure LState where
  round_first_usdt : Option ℚ
  positions : Coin → Option Position
  exits : Coin → TF → Cond → Bool
  stop_limit_price : Coin → String
  bg_running : Bool

/-- The initial value of the state dict. -/
def initState : LState where
  round_first_usdt := none
  positions := fun _ => none
  exits := fun _ _ _ => false
  stop_limit_price := fun _ => ""
  bg_running := false

/-- Requests the code sends to the exchange. -/
inductive Req where
  | setMarginCross (sym : String)
  | setLev (sym : String) (lev : ℕ)
  | marketOrd (sym : String) (side : OrderSide) (qty : ℚ)
  | reduceOnlyMarket (sym : String) (side : OrderSide) (qty : ℚ)
  | cancelAllOrders (sym : String)
  | stopMarketClose (sym : String) (side : OrderSide) (stopPrice : ℚ)
deriving DecidableEq

/-- Exchange data consumed by market_order: current price and LOT_SIZE filter. -/
structure MarketEnv where
  price : ℚ
  stepSize : ℚ
  minQty : ℚ
deriving DecidableEq

/-- round_step inside market_order: round a quantity down to the lot step. -/
def round_step (q step : ℚ) : ℚ := (⌊q / step⌋ : ℚ) * step

/-- market_order: quantity = usdt/price rounded down to the lot step and floored
at minQty; returns the placed order, the price it used, and the quantity. -/
def market_order (sym : String) (side : OrderSide) (usdt_amount : ℚ)
    (env : MarketEnv) : Req × ℚ × ℚ :=
  let qty := max (round_step (usdt_amount / env.price) env.stepSize) env.minQty
  (Req.marketOrd sym side qty, env.price, qty)

/-- close_all_market: reduce-only market close of the full current quantity; a
no-op when the reported quantity is zero. -/
def close_all_market (sym : String) (posQty : ℚ) : List Req :=
  if |posQty| ≤ 0 then []
  else [Req.reduceOnlyMarket sym
          (if posQty > 0 then OrderSide.SELL else OrderSide.BUY) |posQty|]

/-- set_close_position_sl: cancel all open orders for the symbol, then place one
STOP_MARKET closePosition order at the offset against the side; returns the
request trace and the stop price. -/
def set_close_position_sl (sym : String) (side : Side) (ref_price sl_offset : ℚ) :
    List Req × ℚ :=
  let stopPrice :=
    if side = Side.LONG then ref_price * (1 - sl_offset)
    else ref_price * (1 + sl_offset)
  let sl_side := if side = Side.LONG then OrderSide.SELL else OrderSide.BUY
  ([Req.cancelAllOrders sym, Req.stopMarketClose sym sl_side stopPrice],
   stopPrice)

/-- ema tail: each value is x*k + prev*(1-k). -/
def emaGo (k prev : ℚ) : List ℚ → List ℚ
  | [] => []
  | x :: xs => (x * k + prev * (1 - k)) :: emaGo k (x * k + prev * (1 - k)) xs

/-- ema: smoothing factor k = 2/(length+1), seeded with the first sample. -/
def ema (series : List ℚ) (length : ℕ) : List ℚ :=
  match series with
  | [] => []
  | x :: xs => x :: emaGo (2 / ((length : ℚ) + 1)) x xs

/-- True-range tail: tr = max(h-l, |h-prevc|, |l-prevc|), prevc advancing. -/
def trGo (prevc : ℚ) : List ℚ → List ℚ → List ℚ → List ℚ
  | h :: hs, l :: ls, cc :: cs =>
      max (h - l) (max |h - prevc| |l - prevc|) :: trGo cc hs ls cs
  | _, _, _ => []

/-- The true-range sequence; the first bar uses its own close as previous. -/
def trueRanges (h l c : List ℚ) : List ℚ :=
  match c with
  | [] => []
  | c0 :: _ => trGo c0 h l c

/-- Wilder running-average tail: val = (1-k)*val + k*tr. -/
def rmaGo (k val : ℚ) : List ℚ → List ℚ
  | [] => []
  | t :: ts => ((1 - k) * val + k * t) :: rmaGo k ((1 - k) * val + k * t) ts

/-- atr: Wilder RMA of the true ranges, k = 1/length, seeded with the first TR. -/
def atr (h l c : List ℚ) (length : ℕ) : List ℚ :=
  match trueRanges h l c with
  | [] => []
  | t0 :: ts => t0 :: rmaGo (1 / (length : ℚ)) t0 ts

def listMax : List ℚ → ℚ
  | [] => 0
  | x :: xs => xs.foldl max x

def listMin : List ℚ → ℚ
  | [] => 0
  | x :: xs => xs.foldl min x

/-- atr_ts (defined inside check_exit_conditions): basis = high - mult*atr,
rolling max of the basis over the hhv window, with the raw close passed through
unchanged for the first 16 indices. -/
def atr_ts (h l c : List ℚ) (atr_len hhv : ℕ) (mult : ℚ) : List ℚ :=
  let a := atr h l c atr_len
  let basis := (List.range c.length).map (fun i => h.getD i 0 - mult * a.getD i 0)
  (List.range c.length).map (fun i =>
    if i < 16 then c.getD i 0
    else listMax ((basis.drop (i + 1 - hhv)).take (i + 1 - (i + 1 - hhv))))

/-- One step of the chandelier direction flag: +1 on a close above the previous
short stop, -1 on a close below the previous long stop, else the prior flag. -/
def dirStep (prev : ℤ) (ci sv lv : ℚ) : ℤ :=
  if ci > sv then 1 else if ci < lv then -1 else prev

def dirGo (prev : ℤ) : List ℚ → List ℚ → List ℚ → List ℤ
  | [], _, _ => []
  | _ :: _, [], _ => []
  | _ :: _, _ :: _, [] => []
  | ci :: cs, sv :: ss, lv :: ls =>
      dirStep prev ci sv lv :: dirGo (dirStep prev ci sv lv) cs ss ls

/-- The direction-flag series: dirv = [1], then each bar compares its close with
the previous bar's channel levels. -/
def ceDir (c ce_short ce_long : List ℚ) : List ℤ :=
  match c with
  | [] => []
  | _ :: cs => 1 :: dirGo 1 cs ce_short ce_long

/-- chandelier_exit: long stop = highest close of the trailing window minus
mult*ATR, short stop = lowest close plus mult*ATR, plus the direction flags. -/
def chandelier_exit (h l c : List ℚ) (length : ℕ) (mult : ℚ) :
    List ℚ × List ℚ × List ℤ :=
  let a := atr h l c length
  let ce_long := (List.range c.length).map (fun i =>
    listMax ((c.drop (i + 1 - length)).take (i + 1 - (i + 1 - length)))
      - mult * a.getD i 0)
  let ce_short := (List.range c.length).map (fun i =>
    listMin ((c.drop (i + 1 - length)).take (i + 1 - (i + 1 - length)))
      + mult * a.getD i 0)
  (ce_long, ce_short, ceDir c ce_short ce_long)

/-- swing_hl: scan the candidate pivot bars left to right; the last confirmed
pivot high/low wins; none when no bar is confirmed. -/
def swing_hl (h l : List ℚ) (sh sl : ℕ) : Option ℚ × Option ℚ :=
  (List.range' sl (h.length - sl - sl)).foldl
    (fun acc i =>
      let okH := (List.range' 1 sh).all (fun k =>
        decide (h.getD i 0 > h.getD (i + k) 0) &&
        decide (h.getD i 0 > h.getD (i - k) 0))
      let okL := (List.range' 1 sl).all (fun k =>
        decide (l.getD i 0 < l.getD (i + k) 0) &&
        decide (l.getD i 0 < l.getD (i - k) 0))
      (if okH then some (h.getD i 0) else acc.1,
       if okL then some (l.getD i 0) else acc.2))
    (none, none)

/-- The SwingHigh stop check of check_exit_conditions: only consulted when a
pivot high exists, and only meaningful for a SHORT position. -/
def swingHighFire (flag : Bool) (curH : Option ℚ) (side : Side)
    (now_price : ℚ) : Bool :=
  flag && (match curH with
           | none => false
           | some v => decide (side = Side.SHORT) && decide (now_price > v))

/-- The SwingLow stop check of check_exit_conditions. -/
def swingLowFire (flag : Bool) (curL : Option ℚ) (side : Side)
    (now_price : ℚ) : Bool :=
  flag && (match curL with
           | none => false
           | some v => decide (side = Side.LONG) && decide (now_price < v))

/-- LONG fires when the value drops below the level, SHORT when it rises above
(the ATR-TS and EMA stop rules). -/
def fireBelowAbove (side : Side) (x level : ℚ) : Bool :=
  if side = Side.LONG then decide (x < level) else decide (x > level)

/-- The chandelier stop rule: LONG fires below the long stop, SHORT above the
short stop. -/
def ceFire (side : Side) (x ceLongLast ceShortLast : ℚ) : Bool :=
  if side = Side.LONG then decide (x < ceLongLast) else decide (x > ceShortLast)

/-- The triggered computation of check_exit_conditions: enabled TF1 conditions
first; TF3 conditions are consulted only when no TF1 condition fired. -/
def exitTriggered (side : Side) (now_price : ℚ) (h l c h3 l3 c3 : List ℚ)
    (tf1 tf3 : Cond → Bool) : Bool :=
  let ema13 := ema c 13
  let ema26 := ema c 26
  let ema26_3 := ema c3 26
  let atrts_1 := atr_ts h l c 5 10 3
  let atrts_3 := atr_ts h3 l3 c3 5 10 3
  let ce1 := chandelier_exit h l c 22 3
  let ce3 := chandelier_exit h3 l3 c3 22 3
  let sw := swing_hl h l 5 5
  let lastC := c.getLastD 0
  let lastC3 := c3.getLastD 0
  let t1 :=
    (tf1 Cond.ATR && fireBelowAbove side lastC (atrts_1.getLastD 0)) ||
    (tf1 Cond.CE && ceFire side lastC (ce1.1.getLastD 0) (ce1.2.1.getLastD 0)) ||
    (tf1 Cond.EMA13 && fireBelowAbove side lastC (ema13.getLastD 0)) ||
    (tf1 Cond.EMA26 && fireBelowAbove side lastC (ema26.getLastD 0)) ||
    swingHighFire (tf1 Cond.SwingHigh) sw.1 side now_price ||
    swingLowFire (tf1 Cond.SwingLow) sw.2 side now_price
  if t1 then true
  else
    (tf3 Cond.ATR && fireBelowAbove side lastC3 (atrts_3.getLastD 0)) ||
    (tf3 Cond.CE && ceFire side lastC3 (ce3.1.getLastD 0) (ce3.2.1.getLastD 0)) ||
    (tf3 Cond.EMA26 && fireBelowAbove side lastC3 (ema26_3.getLastD 0))

/-- Pop a coin's ledger entry and, when the positions dict is then empty, clear
round_first_usdt (the shared pattern of check_exit_conditions and the loop's
zero-quantity cleanup). -/
def popAndMaybeReset (coin : Coin) (s : LState) : LState :=
  let positions' : Coin → Option Position :=
    fun c => if c = coin then none else s.positions c
  { s with positions := positions',
           round_first_usdt :=
             if positions' Coin.BTC = none ∧ positions' Coin.ETH = none then none
             else s.round_first_usdt }

/-- Values fetched from the exchange during one per-coin pass of bg_loop. -/
structure TickEnv where
  posQty : ℚ
  price : ℚ
  evQty : ℚ
  evPrice : ℚ
  h1 : List ℚ
  l1 : List ℚ
  c1 : List ℚ
  h3 : List ℚ
  l3 : List ℚ
  c3 : List ℚ
  addMarket : MarketEnv

/-- check_exit_conditions: a no-op when the reported quantity is zero; the side
is derived from the sign of the reported quantity; on a trigger it closes the
position, pops the ledger entry and possibly clears the round size. -/
def check_exit_conditions (coin : Coin) (env : TickEnv) (s : LState) :
    Bool × LState × List Req :=
  if env.evQty = 0 then (false, s, [])
  else
    let side := if env.evQty > 0 then Side.LONG else Side.SHORT
    let triggered := exitTriggered side env.evPrice env.h1 env.l1 env.c1
        env.h3 env.l3 env.c3 (s.exits coin TF.TF1) (s.exits coin TF.TF3)
    if triggered then
      (true, popAndMaybeReset coin s, close_all_market (symbolOf coin) env.evQty)
    else (false, s, [])

/-- Per-round first-order size: 1.0025 for LONG, 0.9975 for SHORT. -/
def move (side : Side) : ℚ :=
  if side = Side.LONG then 10025 / 10000 else 9975 / 10000

/-- The add branch of bg_loop: a market order of the stored base_usdt, a fresh
0.50 percent protective stop at the fill price, and the ledger update of
last_add_price / next_add_price (entry_price is not touched). -/
def bgAdd (coin : Coin) (ps : Position) (menv : MarketEnv) (s : LState) :
    LState × List Req :=
  let sym := symbolOf coin
  let mo := market_order sym
    (if ps.side = Side.LONG then OrderSide.BUY else OrderSide.SELL)
    ps.base_usdt menv
  let slr := set_close_position_sl sym ps.side mo.2.1 (5 / 1000)
  let ps' := { ps with last_add_price := mo.2.1,
                       next_add_price := mo.2.1 * move ps.side }
  ({ s with positions := fun c => if c = coin then some ps' else s.positions c },
   mo.1 :: slr.1)

/-- One per-coin pass of bg_loop: cleanup on zero quantity, else run the exit
check (its boolean result is discarded, as in the source) and then the add
trigger against the position snapshot taken before the exit check. -/
def processCoin (coin : Coin) (env : TickEnv) (s : LState) :
    LState × List Req :=
  if env.posQty = 0 then (popAndMaybeReset coin s, [])
  else
    match s.positions coin with
    | none => (s, [])
    | some ps =>
      let r := check_exit_conditions coin env s
      let ok := if ps.side = Side.LONG then decide (env.price ≥ ps.next_add_price)
                else decide (env.price ≤ ps.next_add_price)
      if ok then
        let ar := bgAdd coin ps env.addMarket r.2.1
        (ar.1, r.2.2 ++ ar.2)
      else (r.2.1, r.2.2)

/-- round(x, 2) of Python, as ordinary rounding to two decimals (Python rounds
half to even; no claim depends on the tie case). -/
def round2 (x : ℚ) : ℚ := ((round (100 * x) : ℤ) : ℚ) / 100

/-- compute_first_order_usdt: reuse the round's first-order size, or set it to
8 percent of the wallet balance. -/
def compute_first_order_usdt (bal : ℚ) (s : LState) : ℚ × LState :=
  match s.round_first_usdt with
  | some v => (v, s)
  | none =>
      let amount := round2 (bal * (8 / 100))
      (amount, { s with round_first_usdt := some amount })

/-- Values fetched from the exchange during start_position. -/
structure OpenEnv where
  posQty : ℚ
  wallet : ℚ
  market : MarketEnv
deriving DecidableEq

/-- start_position: margin/leverage setup first, then the already-open check,
then sizing, market order, protective stop, and the new ledger entry (with
entry_price = last_add_price = the order price and the +-0.25 percent add
trigger); ensure_bg marks the loop running. -/
def start_position (coin : Coin) (side : Side) (env : OpenEnv) (s : LState) :
    Except String (ℚ × ℚ × ℚ) × LState × List Req :=
  let sym := symbolOf coin
  let setup := [Req.setMarginCross sym, Req.setLev sym 5]
  if env.posQty ≠ 0 then
    (Except.error ("Position already open for " ++ coinName coin), s, setup)
  else
    let bs := compute_first_order_usdt env.wallet s
    let mo := market_order sym
      (if side = Side.LONG then OrderSide.BUY else OrderSide.SELL) bs.1 env.market
    let slr := set_close_position_sl sym side mo.2.1 (5 / 1000)
    let s2 : LState :=
      { bs.2 with
        positions := fun c =>
          if c = coin then
            some ⟨side, mo.2.1, bs.1, mo.2.1, mo.2.1 * move side, none⟩
          else bs.2.positions c,
        bg_running := true }
    (Except.ok (mo.2.1, mo.2.2, bs.1), s2, setup ++ [mo.1] ++ slr.1)

/-- toggle_exit: negate one toggle and return the new value; indexing a key
absent from the window's dict raises (none). -/
def toggle_exit (coin : Coin) (key : Cond) (tf : TF) (s : LState) :
    Option (Bool × LState) :=
  if condInTF tf key then
    let cur := s.exits coin tf key
    some (!cur,
      { s with exits := fun c t k =>
          if c = coin ∧ t = tf ∧ k = key then !cur else s.exits c t k })
  else none

/-- The behaviour of the chandelier direction-flag series claimed by the spec:
aligned with the closes, +1 first, always +-1, flips only on a breach of the
previous bar's opposite channel level, and holds otherwise. -/
def ChandelierDirSpec (h l c : List ℚ) : Prop :=
  ((chandelier_exit h l c 22 3).2.2).length = c.length ∧
  ((chandelier_exit h l c 22 3).2.2).getD 0 0 = 1 ∧
  (∀ x ∈ (chandelier_exit h l c 22 3).2.2, x = 1 ∨ x = -1) ∧
  ∀ i, 0 < i → i < c.length →
    (((chandelier_exit h l c 22 3).2.2).getD i 0 ≠
        ((chandelier_exit h l c 22 3).2.2).getD (i - 1) 0 →
      (((chandelier_exit h l c 22 3).2.2).getD i 0 = -1 →
        c.getD i 0 < ((chandelier_exit h l c 22 3).1).getD (i - 1) 0) ∧
      (((chandelier_exit h l c 22 3).2.2).getD i 0 = 1 →
        ((chandelier_exit h l c 22 3).2.1).getD (i - 1) 0 < c.getD i 0)) ∧
    (¬(((chandelier_exit h l c 22 3).2.1).getD (i - 1) 0 < c.getD i 0) →
     ¬(c.getD i 0 < ((chandelier_exit h l c 22 3).1).getD (i - 1) 0) →
      ((chandelier_exit h l c 22 3).2.2).getD i 0 =
        ((chandelier_exit h l c 22 3).2.2).getD (i - 1) 0)

/-- What toggle_exit does to the state: exactly one flag is negated and
returned, every other component of the state is unchanged, and toggling again
restores the original state. -/
def ToggleSpec (coin : Coin) (key : Cond) (tf : TF) (s : LState) : Prop :=
  ∃ b s', toggle_exit coin key tf s = some (b, s') ∧
    b = !(s.exits coin tf key) ∧
    s'.exits coin tf key = b ∧
    (∀ c t k, ¬(c = coin ∧ t = tf ∧ k = key) → s'.exits c t k = s.exits c t k) ∧
    s'.round_first_usdt = s.round_first_usdt ∧
    s'.positions = s.positions ∧
    s'.stop_limit_price = s.stop_limit_price ∧
    s'.bg_running = s.bg_running ∧
    toggle_exit coin key tf s' = some (s.exits coin tf key, s)

/-- What start_position does on the rejecting path: the structured error, the
untouched ledger, and a request trace holding exactly the margin/leverage
setup (no order). -/
def OpenRejectSpec (coin : Coin) (side : Side) (env : OpenEnv) (s : LState) :
    Prop :=
  (start_position coin side env s).1 =
      Except.error ("Position already open for " ++ coinName coin) ∧
  (start_position coin side env s).2.1 = s ∧
  (start_position coin side env s).2.2 =
      [Req.setMarginCross (symbolOf coin), Req.setLev (symbolOf coin) 5]

/-- Concrete environment: flat instrument, wallet 1000, price 100, unit lot. -/
def envOpen0 : OpenEnv := ⟨0, 1000, ⟨100, 1, 1⟩⟩

/-- Concrete environment with an already-open reported position. -/
def envReject : OpenEnv := ⟨1, 1000, ⟨100, 1, 1⟩⟩

/-- Ledger after opening LONG BTC at price 100 with wallet 1000. -/
def sOpen : LState := (start_position Coin.BTC Side.LONG envOpen0 initState).2.1

/-- A loop tick at price 100.25 with no exit toggles on: the add fires. -/
def tickAddEnv : TickEnv :=
  ⟨1, 401 / 4, 1, 0, [1], [1], [1], [1], [1], [1], ⟨401 / 4, 1, 1⟩⟩

/-- A LONG BTC position whose add trigger sits at 100. -/
def psBug : Position := ⟨Side.LONG, 100, 80, 100, 100, none⟩

/-- Ledger holding psBug with only the TF1 EMA13 exit toggle enabled. -/
def sBug : LState where
  round_first_usdt := some 80
  positions := fun c => if c = Coin.BTC then some psBug else none
  exits := fun c t k =>
    decide (c = Coin.BTC) && decide (t = TF.TF1) && decide (k = Cond.EMA13)
  stop_limit_price := fun _ => ""
  bg_running := true

/-- A loop tick where the EMA13 exit fires (last close 1 below EMA13) while the
price 101 has also crossed the 100 add trigger. -/
def tickBugEnv : TickEnv :=
  ⟨1, 101, 1, 50, [2, 1], [1, 1], [2, 1], [1], [1], [1], ⟨100, 1, 1⟩⟩

/-- Claim C6: every call to the protective-stop operation first cancels all open
orders for the instrument and then places exactly one stop-market close-position
order, at reference * (1 - 0.005) for LONG and reference * (1 + 0.005) for
SHORT. -/
theorem protective_stop_spec (sym : String) (ref : ℚ) :
    (set_close_position_sl sym Side.LONG ref (5 / 1000)).1 =
      [Req.cancelAllOrders sym,
       Req.stopMarketClose sym OrderSide.SELL (ref * (1 - 5 / 1000))] ∧
    (set_close_position_sl sym Side.SHORT ref (5 / 1000)).1 =
      [Req.cancelAllOrders sym,
       Req.stopMarketClose sym OrderSide.BUY (ref * (1 + 5 / 1000))] := by
  simp [set_close_position_sl]

theorem emaGo_const (k v : ℚ) :
    ∀ xs : List ℚ, (∀ x ∈ xs, x = v) → ∀ y ∈ emaGo k v xs, y = v := by
  intro xs
  induction xs with
  | nil => intro _ y hy; simp [emaGo] at hy
  | cons x xs ih =>
    intro hx y hy
    have hxv : x = v := hx x (by simp)
    subst hxv
    have hk : x * k + x * (1 - k) = x := by ring
    rw [emaGo, hk] at hy
    rcases List.mem_cons.mp hy with h | h
    · exact h
    · exact ih (fun z hz => hx z (List.mem_cons_of_mem x hz)) y h

/-- Claim C8: on a non-empty constant series and any length at least 1, every
element of the ema output equals the constant. -/
theorem ema_const (s : List ℚ) (v : ℚ) (len : ℕ) (hs : s ≠ []) (hlen : 1 ≤ len)
    (hv : ∀ x ∈ s, x = v) : ∀ y ∈ ema s len, y = v := by
  match s, hs with
  | x :: xs, _ =>
    intro y hy
    have hxv : x = v := hv x (by simp)
    rw [ema] at hy
    rcases List.mem_cons.mp hy with h | h
    · rw [h, hxv]
    · exact emaGo_const _ v xs (by
        intro z hz
        exact hv z (List.mem_cons_of_mem x hz)) y (by rw [← hxv]; exact h)

theorem ema_const_witness :
    (([3, 3] : List ℚ) ≠ []) ∧ 1 ≤ 2 ∧ (∀ x ∈ ([3, 3] : List ℚ), x = 3) ∧
    (∀ y ∈ ema [3, 3] 2, y = 3) :=
  ⟨by decide, by decide, by decide,
   ema_const [3, 3] 3 2 (by decide) (by decide) (by decide)⟩

/-- Claim C10: the SwingHigh / SwingLow stop conditions report no trigger when
the corresponding pivot is missing (even with the toggle enabled), and swing_hl
reports no pivots at all on windows of fewer than 11 bars. -/
theorem swing_missing_pivot_no_trigger :
    (∀ (flag : Bool) (side : Side) (np : ℚ),
        swingHighFire flag none side np = false) ∧
    (∀ (flag : Bool) (side : Side) (np : ℚ),
        swingLowFire flag none side np = false) ∧
    (∀ h l : List ℚ, h.length < 11 → swing_hl h l 5 5 = (none, none)) := by
  refine ⟨?_, ?_, ?_⟩
  · intro flag side np; simp [swingHighFire]
  · intro flag side np; simp [swingLowFire]
  · intro h l hlen
    have h0 : h.length - 5 - 5 = 0 := by omega
    simp [swing_hl, h0]

theorem swing_missing_pivot_no_trigger_witness :
    swingHighFire true none Side.SHORT 5 = false ∧
    ([] : List ℚ).length < 11 ∧ swing_hl [] [] 5 5 = (none, none) :=
  ⟨swing_missing_pivot_no_trigger.1 true Side.SHORT 5, by decide,
   swing_missing_pivot_no_trigger.2.2 [] [] (by decide)⟩

/-- Claim C4 (amended): on a non-zero reported quantity start_position returns
the structured error with the ledger untouched and no order placed, but the
margin/leverage setup has already been issued before the check, so it appears
on the rejecting path as well. -/
theorem open_reject_frame (coin : Coin) (side : Side) (env : OpenEnv)
    (s : LState) (h : env.posQty ≠ 0) : OpenRejectSpec coin side env s := by
  refine ⟨?_, ?_, ?_⟩ <;> simp [OpenRejectSpec, start_position, h]

theorem open_reject_frame_witness :
    envReject.posQty ≠ 0 ∧ OpenRejectSpec Coin.BTC Side.LONG envReject initState :=
  ⟨by decide, open_reject_frame Coin.BTC Side.LONG envReject initState (by decide)⟩

/-- Claim C4, counterexample: the claim restricts the cross-margin / leverage
setup to the non-rejecting path, but on a rejecting call (reported quantity 1)
the request trace already holds both setup calls. -/
theorem open_reject_sets_leverage_cex :
    (start_position Coin.BTC Side.LONG envReject initState).1 =
      Except.error "Position already open for BTC" ∧
    Req.setLev "BTCUSDT" 5 ∈
      (start_position Coin.BTC Side.LONG envReject initState).2.2 ∧
    Req.setMarginCross "BTCUSDT" ∈
      (start_position Coin.BTC Side.LONG envReject initState).2.2 := by
  decide

/-- Claim C5: the recorded next_add_price is exactly the executed order price
times 1.0025 for LONG and times 0.9975 for SHORT, both when a position is
opened and on every add performed by the loop. -/
theorem next_add_price_spec :
    (∀ (coin : Coin) (side : Side) (env : OpenEnv) (s : LState),
      env.posQty = 0 →
      ((start_position coin side env s).2.1.positions coin).map
          Position.next_add_price =
        some (env.market.price *
          (if side = Side.LONG then (10025 / 10000 : ℚ) else 9975 / 10000))) ∧
    (∀ (coin : Coin) (ps : Position) (menv : MarketEnv) (s : LState),
      ((bgAdd coin ps menv s).1.positions coin).map Position.next_add_price =
        some (menv.price *
          (if ps.side = Side.LONG then (10025 / 10000 : ℚ) else 9975 / 10000))) := by
  constructor
  · intro coin side env s h
    simp [start_position, h, market_order, move]
  · intro coin ps menv s
    simp [bgAdd, market_order, move]

theorem next_add_price_spec_witness :
    envOpen0.posQty = 0 ∧
    ((start_position Coin.BTC Side.LONG envOpen0 initState).2.1.positions
        Coin.BTC).map Position.next_add_price =
      some (envOpen0.market.price *
        (if Side.LONG = Side.LONG then (10025 / 10000 : ℚ) else 9975 / 10000)) :=
  ⟨rfl, next_add_price_spec.1 Coin.BTC Side.LONG envOpen0 initState rfl⟩

/-- Claim C1 (amended): an add performed by the loop never touches entry_price;
it only moves last_add_price (and next_add_price) to the new order price, so
after an add at a different price entry_price differs from last_add_price. -/
theorem entry_price_not_overwritten (coin : Coin) (ps : Position)
    (menv : MarketEnv) (s : LState) :
    ((bgAdd coin ps menv s).1.positions coin).map Position.entry_price =
        some ps.entry_price ∧
    ((bgAdd coin ps menv s).1.positions coin).map Position.last_add_price =
        some menv.price := by
  simp [bgAdd, market_order]

/-- Claim C1, counterexample: open LONG at 100, then a loop tick whose add
fills at 100.25 leaves entry_price at 100 while last_add_price is 100.25 —
entry_price is not overwritten to the latest add's fill price. -/
theorem entry_price_stale_cex :
    ((processCoin Coin.BTC tickAddEnv sOpen).1.positions Coin.BTC).map
        Position.entry_price = some 100 ∧
    ((processCoin Coin.BTC tickAddEnv sOpen).1.positions Coin.BTC).map
        Position.last_add_price = some (401 / 4) ∧
    (100 : ℚ) ≠ 401 / 4 := by
  decide

/-- Claim C9: toggle_exit negates exactly the addressed flag, returns the new
value, changes nothing else in the state, and applying it twice restores the
original state. -/
theorem toggle_exit_spec (coin : Coin) (key : Cond) (tf : TF) (s : LState)
    (hk : condInTF tf key = true) : ToggleSpec coin key tf s := by
  refine ⟨!(s.exits coin tf key),
    { s with exits := fun c t k =>
        if c = coin ∧ t = tf ∧ k = key then !(s.exits coin tf key)
        else s.exits c t k },
    ?_, rfl, ?_, ?_, rfl, rfl, rfl, rfl, ?_⟩
  · simp [toggle_exit, hk]
  · simp
  · intro c t k hne
    simp [hne]
  · simp only [toggle_exit, hk, if_pos, if_true]
    refine congrArg some ?_
    refine Prod.ext ?_ ?_
    · simp
    · refine LState.ext rfl ?_ ?_ rfl rfl
      · rfl
      · funext c t k
        by_cases hctk : c = coin ∧ t = tf ∧ k = key
        · obtain ⟨rfl, rfl, rfl⟩ := hctk
          simp
        · simp [hctk]

theorem toggle_exit_spec_witness :
    condInTF TF.TF1 Cond.ATR = true ∧
    ToggleSpec Coin.BTC Cond.ATR TF.TF1 initState :=
  ⟨rfl, toggle_exit_spec Coin.BTC Cond.ATR TF.TF1 initState rfl⟩

/-- Claim C2, failing tick: the exit evaluator fires (EMA13 stop, last close 1
below the EMA) and the loop still evaluates the add trigger of the stale
snapshot — the trace holds the reduce-only close and a fresh add order, and the
popped ledger entry is re-inserted. -/
theorem exit_then_add_same_tick :
    (check_exit_conditions Coin.BTC tickBugEnv sBug).1 = true ∧
    Req.reduceOnlyMarket "BTCUSDT" OrderSide.SELL 1 ∈
      (processCoin Coin.BTC tickBugEnv sBug).2 ∧
    Req.marketOrd "BTCUSDT" OrderSide.BUY 1 ∈
      (processCoin Coin.BTC tickBugEnv sBug).2 ∧
    (processCoin Coin.BTC tickBugEnv sBug).1.positions Coin.BTC ≠ none := by
  decide

theorem dirGo_length : ∀ (cs ss ls : List ℚ) (prev : ℤ),
    cs.length ≤ ss.length → cs.length ≤ ls.length →
    (dirGo prev cs ss ls).length = cs.length := by
  intro cs
  induction cs with
  | nil => intro ss ls prev _ _; simp [dirGo]
  | cons ci cs ih =>
    intro ss ls prev h1 h2
    cases ss with
    | nil => simp at h1
    | cons sv ss =>
      cases ls with
      | nil => simp at h2
      | cons lv ls =>
        simp only [dirGo, List.length_cons]
        rw [ih ss ls (dirStep prev ci sv lv) (by simpa using h1) (by simpa using h2)]

theorem dirGo_getD : ∀ (cs ss ls : List ℚ) (prev : ℤ) (i : ℕ),
    i < (dirGo prev cs ss ls).length →
    (dirGo prev cs ss ls).getD i 0 =
      dirStep ((prev :: dirGo prev cs ss ls).getD i 0)
        (cs.getD i 0) (ss.getD i 0) (ls.getD i 0) := by
  intro cs
  induction cs with
  | nil => intro ss ls prev i hi; simp [dirGo] at hi
  | cons ci cs ih =>
    intro ss ls prev i hi
    cases ss with
    | nil => simp [dirGo] at hi
    | cons sv ss =>
      cases ls with
      | nil => simp [dirGo] at hi
      | cons lv ls =>
        cases i with
        | zero => simp [dirGo]
        | succ j =>
          have hj : j < (dirGo (dirStep prev ci sv lv) cs ss ls).length := by
            simpa [dirGo] using hi
          simpa [dirGo, List.getD_cons_succ] using
            ih ss ls (dirStep prev ci sv lv) j hj

theorem dirGo_mem : ∀ (cs ss ls : List ℚ) (prev : ℤ),
    (prev = 1 ∨ prev = -1) → ∀ x ∈ dirGo prev cs ss ls, x = 1 ∨ x = -1 := by
  intro cs
  induction cs with
  | nil => intro ss ls prev _ x hx; simp [dirGo] at hx
  | cons ci cs ih =>
    intro ss ls prev hp x hx
    cases ss with
    | nil => simp [dirGo] at hx
    | cons sv ss =>
      cases ls with
      | nil => simp [dirGo] at hx
      | cons lv ls =>
        have hd : dirStep prev ci sv lv = 1 ∨ dirStep prev ci sv lv = -1 := by
          unfold dirStep
          split_ifs with h1 h2
          · exact Or.inl rfl
          · exact Or.inr rfl
          · exact hp
        simp only [dirGo] at hx
        rcases List.mem_cons.mp hx with h | h
        · rw [h]; exact hd
        · exact ih ss ls (dirStep prev ci sv lv) hd x h

/-- Claim C7: for every candle set the chandelier direction-flag series is
aligned with the closes, starts at +1, stays in {+1, -1}, flips to -1 only when
the close drops below the previous bar's long stop, flips to +1 only when the
close rises above the previous bar's short stop, and holds otherwise. -/
theorem chandelier_dir_spec (h l c : List ℚ) (hc : c ≠ []) :
    ChandelierDirSpec h l c := by
  obtain ⟨c0, cs, rfl⟩ := List.exists_cons_of_ne_nil hc
  unfold ChandelierDirSpec
  set ceL := (chandelier_exit h l (c0 :: cs) 22 3).1 with hceL
  set ceS := (chandelier_exit h l (c0 :: cs) 22 3).2.1 with hceS
  set d := (chandelier_exit h l (c0 :: cs) 22 3).2.2 with hdd
  have hproj : d = 1 :: dirGo 1 cs ceS ceL := rfl
  have hlS : ceS.length = cs.length + 1 := by
    rw [hceS]; simp [chandelier_exit]
  have hlL : ceL.length = cs.length + 1 := by
    rw [hceL]; simp [chandelier_exit]
  have hout : (dirGo 1 cs ceS ceL).length = cs.length :=
    dirGo_length cs ceS ceL 1 (by omega) (by omega)
  refine ⟨?_, ?_, ?_, ?_⟩
  · rw [hproj]; simp [hout]
  · rw [hproj]; rfl
  · rw [hproj]
    intro x hx
    rcases List.mem_cons.mp hx with hx1 | hx2
    · exact Or.inl hx1
    · exact dirGo_mem cs ceS ceL 1 (Or.inl rfl) x hx2
  · intro i hi0 hin
    obtain ⟨j, rfl⟩ : ∃ j, i = j + 1 := ⟨i - 1, by omega⟩
    have hj : j < (dirGo 1 cs ceS ceL).length := by
      rw [hout]; simpa using hin
    have key := dirGo_getD cs ceS ceL 1 j hj
    have E : d.getD (j + 1) 0 =
        dirStep (d.getD j 0) ((c0 :: cs).getD (j + 1) 0)
          (ceS.getD j 0) (ceL.getD j 0) := by
      rw [hproj]
      simp only [List.getD_cons_succ]
      exact key
    simp only [Nat.add_sub_cancel]
    by_cases hgt : (c0 :: cs).getD (j + 1) 0 > ceS.getD j 0
    · rw [dirStep, if_pos hgt] at E
      constructor
      · intro _
        constructor
        · intro hm1; rw [E] at hm1; exact absurd hm1 (by decide)
        · intro _; exact hgt
      · intro hn1 _; exact absurd hgt hn1
    · by_cases hlt : (c0 :: cs).getD (j + 1) 0 < ceL.getD j 0
      · rw [dirStep, if_neg hgt, if_pos hlt] at E
        constructor
        · intro _
          constructor
          · intro _; exact hlt
          · intro h1; rw [E] at h1; exact absurd h1 (by decide)
        · intro _ hn2; exact absurd hlt hn2
      · rw [dirStep, if_neg hgt, if_neg hlt] at E
        constructor
        · intro hne; exact absurd E hne
        · intro _ _; exact E

theorem chandelier_dir_spec_witness :
    (([1, 2] : List ℚ) ≠ []) ∧ ChandelierDirSpec [1, 2] [1, 2] [1, 2] :=
  ⟨by decide, chandelier_dir_spec [1, 2] [1, 2] [1, 2] (by decide)⟩


/-- Claim C3, violating run: in the tick where the indicator-triggered close
fires while the add trigger is also crossed, the exit path pops the only ledger
entry and clears round_first_usdt; the loop's stale-snapshot add then places a
fresh non-reduce-only market order (re-opening the position at the exchange)
and re-inserts the entry — leaving an instrument with an open position while
round_first_usdt is null, so the round-sizing invariant is not preserved. -/
theorem round_invariant_broken_same_tick :
    (processCoin Coin.BTC tickBugEnv sBug).1.round_first_usdt = none ∧
    (processCoin Coin.BTC tickBugEnv sBug).1.positions Coin.BTC ≠ none ∧
    Req.marketOrd "BTCUSDT" OrderSide.BUY 1 ∈
      (processCoin Coin.BTC tickBugEnv sBug).2 := by
  decide
